import Mathlib

/-!
# Verification of the HactMate brainstorm-board sync engine

Shallow embedding of the client-side reconciliation engine of the
`BrainstormBoard` React component: the debounced delta buffer that batches
local tldraw edits before pushing them to Firestore, the loop guard that
drops remote-origin change notifications, the inbound merger that applies
Firestore snapshots into the local store, and the presence
publisher/subscriber for live cursors.

JavaScript objects keyed by record id are embedded as association lists
(`RecordMap`); `Object.values` is `alValues`; property assignment is
`alInsert` (replace in place, append if absent, matching JS key order
semantics); `delete obj[k]` is `alErase`. Timestamps are integers
(epoch millis); pointer coordinates are `JSNum` (rational, ±infinity, NaN)
so that the `Number.isNaN` guard and `Math.round` of the publisher can be
stated faithfully.
-/

/-- A tldraw record: an identity-bearing unit of document state.
The payload is opaque to the sync engine, so it is a bare `Nat`. -/
structure TLRecord where
  id : String
  payload : Nat
deriving DecidableEq, Repr

/-- A JS object mapping record ids to records, as an association list. -/
abbrev RecordMap := List (String × TLRecord)

/-- JS `obj[k] = v`: replace the first binding of `k` in place, else append. -/
def alInsert (k : String) (v : TLRecord) : RecordMap → RecordMap
  | [] => [(k, v)]
  | (k', v') :: rest =>
    if k' = k then (k, v) :: rest else (k', v') :: alInsert k v rest

/-- JS `delete obj[k]`: remove every binding of `k`. -/
def alErase (k : String) : RecordMap → RecordMap
  | [] => []
  | (k', v') :: rest =>
    if k' = k then alErase k rest else (k', v') :: alErase k rest

/-- JS `obj[k]`: the first binding of `k`, if any. -/
def alLookup (k : String) : RecordMap → Option TLRecord
  | [] => none
  | (k', v') :: rest => if k' = k then some v' else alLookup k rest

/-- JS `Object.values(obj)`. -/
def alValues (m : RecordMap) : List TLRecord := m.map Prod.snd

/-- JS `k in obj`: the id has a binding in the map. -/
def keyIn (k : String) (m : RecordMap) : Prop := (alLookup k m).isSome

instance (k : String) (m : RecordMap) : Decidable (keyIn k m) := by
  unfold keyIn; infer_instance

-- -----------------------------------------------------------------------------
-- Delta Buffer: the `pendingChanges` accumulator and its fold rules
-- (store.listen handler, part_003 lines 178-209)
-- -----------------------------------------------------------------------------

/-- The mutable `pendingChanges` accumulator:
`{ added: Record<string, TLRecord>, updated: ..., removed: ... }`. -/
structure PendingChangeSet where
  added : RecordMap
  updated : RecordMap
  removed : RecordMap
deriving DecidableEq, Repr

/-- The reset value `{ added: {}, updated: {}, removed: {} }` of the buffer. -/
def emptyPending : PendingChangeSet := ⟨[], [], []⟩

/-- One change notification delivered to the `store.listen` callback.
`updated` entries are `[prev, next]` tuples; the handler reads `change[1]`
and skips the entry when it is absent (`if (!next) return`). -/
structure ChangeSet where
  added : List TLRecord
  updated : List (TLRecord × Option TLRecord)
  removed : List TLRecord

/-- Handle Added: `pending.added[rec.id] = rec; delete pending.removed[rec.id]`. -/
def absorbAdded (p : PendingChangeSet) (rec : TLRecord) : PendingChangeSet :=
  { p with
    added := alInsert rec.id rec p.added
    removed := alErase rec.id p.removed }

/-- Handle Updated: take `next = change[1]`; skip if absent; if the id is in
the added buffer just update the definition there, else record the update
and drop any stale removal. -/
def absorbUpdated (p : PendingChangeSet) (change : TLRecord × Option TLRecord) :
    PendingChangeSet :=
  match change.2 with
  | none => p
  | some next =>
    if (alLookup next.id p.added).isSome then
      { p with added := alInsert next.id next p.added }
    else
      { p with
        updated := alInsert next.id next p.updated
        removed := alErase next.id p.removed }

/-- Handle Removed: if the id was added in this buffer, forget it existed;
else drop any pending update and record the removal. -/
def absorbRemoved (p : PendingChangeSet) (rec : TLRecord) : PendingChangeSet :=
  if (alLookup rec.id p.added).isSome then
    { p with added := alErase rec.id p.added }
  else
    { p with
      updated := alErase rec.id p.updated
      removed := alInsert rec.id rec p.removed }

/-- Merge one notification into the pending buffer: the three `forEach`
loops of the listener, in source order (added, then updated, then removed). -/
def absorb (p : PendingChangeSet) (cs : ChangeSet) : PendingChangeSet :=
  cs.removed.foldl absorbRemoved
    (cs.updated.foldl absorbUpdated
      (cs.added.foldl absorbAdded p))

-- -----------------------------------------------------------------------------
-- Loop Guard and Debounced Flusher
-- (store.listen handler and the 500ms setTimeout flush, part_003 lines 167-251)
-- -----------------------------------------------------------------------------

/-- The `source` field of a tldraw store notification. -/
inductive Source
  | user
  | remote
deriving DecidableEq, Repr

/-- The change batches produced by `store.mergeRemoteChanges` (the Inbound
Merger's apply path) reach the listener tagged with this source. -/
def inboundSource : Source := Source.remote

/-- The `syncStatus` React state: `"synced" | "syncing" | "error"`. -/
inductive SyncStatus
  | synced
  | syncing
  | error
deriving DecidableEq, Repr

/-- The `setTimeout(..., 500)` debounce window. -/
def debounceMs : Nat := 500

/-- The component state relevant to the outbound path: the pending buffer,
the single debounce timer handle (`timeoutRef`, modelled by its absolute
deadline), the visible sync status, and the log of payloads passed to
`updateWhiteboardShapes` (the outbound push calls). -/
structure BoardState where
  pending : PendingChangeSet
  timer : Option Nat
  syncStatus : SyncStatus
  sent : List PendingChangeSet
deriving DecidableEq, Repr

/-- Initial component state: empty buffer, no timer armed, nothing sent. -/
def initBoard : BoardState :=
  { pending := emptyPending, timer := none
    syncStatus := SyncStatus.synced, sent := [] }

/-- The `store.listen` callback at time `t`: if the notification's source is
remote it returns immediately (Critical Loop Prevention); otherwise it sets
the status to syncing, folds the changes into the pending buffer, and
clears and re-arms the debounce timer for `t + 500`. -/
def handleStoreChange (t : Nat) (source : Source) (cs : ChangeSet)
    (s : BoardState) : BoardState :=
  if source = Source.remote then s
  else
    { s with
      syncStatus := SyncStatus.syncing
      pending := absorb s.pending cs
      timer := some (t + debounceMs) }

/-- The empty-snapshot guard `Object.keys(payload.x).length > 0 || ...`. -/
def hasChanges (payload : PendingChangeSet) : Bool :=
  !payload.added.isEmpty || !payload.updated.isEmpty || !payload.removed.isEmpty

/-- The synchronous prefix of the timeout callback: copy the pending buffer
into `payload`, reset the buffer and the timer handle immediately, and, when
the payload is non-empty, issue the outbound `updateWhiteboardShapes` call
(recorded in `sent`; its completion is `sendComplete`). When the payload is
empty no call is made and `setSyncStatus("synced")` runs at once. Returns
the snapshot together with the post-flush state. -/
def flushStart (s : BoardState) : PendingChangeSet × BoardState :=
  let payload := s.pending
  let s' := { s with pending := emptyPending, timer := none }
  if hasChanges payload then
    (payload, { s' with sent := s'.sent ++ [payload] })
  else
    (payload, { s' with syncStatus := SyncStatus.synced })

/-- Completion of the awaited `updateWhiteboardShapes` call: on resolution
the status becomes synced, on rejection the catch block sets it to error;
nothing else in the state is touched (in particular the cleared buffer is
not restored and the payload is not re-sent). -/
def sendComplete (ok : Bool) (s : BoardState) : BoardState :=
  if ok then { s with syncStatus := SyncStatus.synced }
  else { s with syncStatus := SyncStatus.error }

/-- One local edit arriving at time `t` on the event loop: if the armed
debounce timer's deadline has passed by `t`, the timeout callback runs first
(flush, with the send completing successfully), then the listener handles
the edit. Returns the new state and the flushes that fired, as
(deadline, payload) pairs for non-empty payloads. -/
def stepEdit (t : Nat) (cs : ChangeSet) (s : BoardState) :
    BoardState × List (Nat × PendingChangeSet) :=
  match s.timer with
  | some d =>
    if d ≤ t then
      let payload := (flushStart s).1
      let s' := sendComplete true (flushStart s).2
      (handleStoreChange t Source.user cs s',
        if hasChanges payload then [(d, payload)] else [])
    else
      (handleStoreChange t Source.user cs s, [])
  | none => (handleStoreChange t Source.user cs s, [])

/-- After the last edit the event loop runs the armed timer, if any, to
quiescence. -/
def finalFlush (s : BoardState) : BoardState × List (Nat × PendingChangeSet) :=
  match s.timer with
  | some d =>
    let payload := (flushStart s).1
    (sendComplete true (flushStart s).2,
      if hasChanges payload then [(d, payload)] else [])
  | none => (s, [])

/-- Run a time-ordered sequence of local edits through the listener and the
debounce timer, then let the timer run to quiescence; collects every flush
that resulted in an outbound send, as (time, payload) pairs. -/
def runEdits (edits : List (Nat × ChangeSet)) (s : BoardState) :
    BoardState × List (Nat × PendingChangeSet) :=
  let folded := edits.foldl
    (fun (acc : BoardState × List (Nat × PendingChangeSet)) e =>
      let step := stepEdit e.1 e.2 acc.1
      (step.1, acc.2 ++ step.2))
    (s, [])
  let fin := finalFlush folded.1
  (fin.1, folded.2 ++ fin.2)

/-- Deliver a sequence of (time, batch) change notifications that carry the
remote source to the listener — what the listener sees while inbound store
batches are applied through `store.mergeRemoteChanges`. -/
def applyRemoteNotifications (batches : List (Nat × ChangeSet))
    (s : BoardState) : BoardState :=
  batches.foldl (fun st b => handleStoreChange b.1 inboundSource b.2 st) s

-- -----------------------------------------------------------------------------
-- Inbound Merger (subscribeToWhiteboard callback, part_003 lines 136-154)
-- -----------------------------------------------------------------------------

/-- The local tldraw document is itself a map from ids to records. -/
abbrev Document := RecordMap

/-- JS `store.put(recs)`: upsert each record into the document by its id. -/
def storePut (doc : Document) (recs : List TLRecord) : Document :=
  recs.foldl (fun d r => alInsert r.id r d) doc

/-- The `changes.added` object built by the subscription callback:
`records.forEach(record => changes.added[record.id] = record)`. -/
def buildAddedMap (records : List TLRecord) : RecordMap :=
  records.foldl (fun m r => alInsert r.id r m) []

/-- The whole `subscribeToWhiteboard` callback body acting on the document:
when the batch is non-empty, inside `mergeRemoteChanges` it collects every
incoming record into `changes.added` and calls
`store.put(Object.values(changes.added))`; it never calls `store.remove`. -/
def applyRemote (records : List TLRecord) (doc : Document) : Document :=
  if records.length > 0 then storePut doc (alValues (buildAddedMap records))
  else doc

-- -----------------------------------------------------------------------------
-- Presence Subscriber (CollaborativeCursors, part_003 lines 27-47)
-- -----------------------------------------------------------------------------

/-- The possible shapes of the `lastActive` field of a presence document read
back from Firestore: a Firestore `Timestamp` (has `toMillis`), a JS `Date`
(has `getTime`), a plain number, a string, or null/undefined/absent. -/
inductive JSTime
  | tsObj (millis : Int)
  | dateObj (millis : Int)
  | rawNum (n : Int)
  | strVal (s : String)
  | nullVal
deriving DecidableEq, Repr

/-- The safety check `u.lastActive?.toMillis ? u.lastActive.toMillis() :
u.lastActive?.getTime ? u.lastActive.getTime() : Date.now()` — the safety
check for timestamps. Only an object with a truthy `toMillis` or `getTime`
property yields its own millis; every other value (plain number, string,
null, undefined) falls through to `Date.now()`. Total: defined for every
`JSTime`, so no shape of `lastActive` can make the filter throw. -/
def resolveLastActive (now : Int) : JSTime → Int
  | JSTime.tsObj m => m
  | JSTime.dateObj m => m
  | JSTime.rawNum _ => now
  | JSTime.strVal _ => now
  | JSTime.nullVal => now

/-- A presence document as read by the subscriber. -/
structure PresenceRecord where
  userId : String
  userName : String
  color : String
  x : Int
  y : Int
  lastActive : JSTime
deriving DecidableEq, Repr

/-- The 1-minute inactivity timeout. -/
def staleThresholdMs : Int := 60000

/-- The `users.filter` body: drop the viewer's own record, then keep only
records with `Date.now() - lastActive < 60000`. -/
def presenceKeep (now : Int) (selfUid : String) (u : PresenceRecord) : Bool :=
  if u.userId = selfUid then false
  else decide (now - resolveLastActive now u.lastActive < staleThresholdMs)

/-- The `activeUsers` list handed to `setOtherUsers`. -/
def activeUsers (now : Int) (selfUid : String)
    (users : List PresenceRecord) : List PresenceRecord :=
  users.filter (presenceKeep now selfUid)

-- -----------------------------------------------------------------------------
-- Presence Publisher (CollaborativeCursors broadcastInterval, lines 50-73)
-- -----------------------------------------------------------------------------

/-- A JS number as sampled from `editor.inputs.currentPagePoint`: a finite
value (rational), an infinity, or NaN. -/
inductive JSNum
  | num (q : ℚ)
  | posInf
  | negInf
  | nan
deriving DecidableEq, Repr

/-- JS `Number.isNaN`. -/
def jsIsNaN : JSNum → Bool
  | JSNum.nan => true
  | _ => false

/-- JS `Number.isFinite` (used only to state the spec's finiteness wording). -/
def jsIsFinite : JSNum → Bool
  | JSNum.num _ => true
  | _ => false

/-- JS `Math.round` on a finite JS number: half-up rounding, `⌊q + 1/2⌋`,
computed on the numerator and denominator by floored integer division
(the denominator is positive). -/
def jsRoundQ (q : ℚ) : Int :=
  (2 * q.num + (q.den : Int)).fdiv (2 * (q.den : Int))

/-- JS `Math.round`: finite values round half-up; infinities and NaN pass
through unchanged. -/
def jsRound : JSNum → JSNum
  | JSNum.num q => JSNum.num (jsRoundQ q)
  | x => x

/-- JS `a || b` on strings, where the empty string is falsy (absent values
are embedded as `""`). -/
def jsOrElse (a b : String) : String := if a = "" then b else a

/-- The local part `user.email?.split('@')[0]` of the email. -/
def emailLocalPart (email : String) : String := (email.splitOn "@").headD ""

/-- The fallback chain `userProfile?.name || user.email?.split('@')[0] || "Anon"`. -/
def displayName (profileName : Option String) (email : Option String) : String :=
  jsOrElse (profileName.getD "")
    (jsOrElse ((email.map emailLocalPart).getD "") "Anon")

/-- The object passed to `updatePresence`. -/
structure PresencePayload where
  userId : String
  userName : String
  color : String
  x : JSNum
  y : JSNum
deriving DecidableEq, Repr

/-- One tick of the 100ms `broadcastInterval`: return if fewer than 100ms
have passed since the last emitted publish; otherwise, when neither sampled
coordinate is NaN, publish the identity, display name, color and rounded
coordinates and record the broadcast time. `none` means no publish call was
emitted (and `lastBroadcastRef` is unchanged). -/
def broadcastTick (now last : Int) (x y : JSNum) (uid : String)
    (profileName email : Option String) : Option (PresencePayload × Int) :=
  if now - last < 100 then none
  else if !(jsIsNaN x) && !(jsIsNaN y) then
    some ({ userId := uid
            userName := displayName profileName email
            color := "#3b82f6"
            x := jsRound x
            y := jsRound y }, now)
  else none

-- -----------------------------------------------------------------------------
-- Single-record local notifications and document-consistent traces,
-- used to analyse the invariant of the pending change-set
-- -----------------------------------------------------------------------------

/-- A single-record change notification from the editing surface. -/
inductive LocalOp
  | add (r : TLRecord)
  | update (prev next : TLRecord)
  | remove (r : TLRecord)
deriving DecidableEq, Repr

/-- The notification triple carrying one local operation. -/
def opChangeSet : LocalOp → ChangeSet
  | LocalOp.add r => ⟨[r], [], []⟩
  | LocalOp.update prev next => ⟨[], [(prev, some next)], []⟩
  | LocalOp.remove r => ⟨[], [], [r]⟩

/-- Absorb one single-record notification. -/
def absorbOp (p : PendingChangeSet) (op : LocalOp) : PendingChangeSet :=
  absorb p (opChangeSet op)

/-- The set of ids present in the local document, evolved by an operation:
an add introduces the id, an update keeps it, a remove deletes it. -/
def docStep (doc : List String) : LocalOp → List String
  | LocalOp.add r => r.id :: doc
  | LocalOp.update _ _ => doc
  | LocalOp.remove r => doc.filter (fun k => k != r.id)

/-- An operation is consistent with the document when it adds only an
absent id and updates or removes only a present one — exactly the
notifications the tldraw store can emit about its own records. -/
def opWF (doc : List String) : LocalOp → Prop
  | LocalOp.add r => r.id ∉ doc
  | LocalOp.update _ next => next.id ∈ doc
  | LocalOp.remove r => r.id ∈ doc

/-- A document-consistent sequence of notifications. -/
def wfTrace (doc : List String) : List LocalOp → Prop
  | [] => True
  | op :: rest => opWF doc op ∧ wfTrace (docStep doc op) rest

/-- Every id lives in at most one of the three maps of the buffer. -/
def disjointMaps (p : PendingChangeSet) : Prop :=
  ∀ k, ¬(keyIn k p.added ∧ keyIn k p.updated) ∧
    ¬(keyIn k p.added ∧ keyIn k p.removed) ∧
    ¬(keyIn k p.updated ∧ keyIn k p.removed)

/-- The buffer agrees with the document: pending adds and updates concern
ids present in the document, pending removals concern absent ids. -/
def coupled (doc : List String) (p : PendingChangeSet) : Prop :=
  (∀ k, keyIn k p.added → k ∈ doc) ∧
  (∀ k, keyIn k p.updated → k ∈ doc) ∧
  (∀ k, keyIn k p.removed → k ∉ doc)

-- -----------------------------------------------------------------------------
-- Lookup characterisation of the inbound merge
-- -----------------------------------------------------------------------------

/-- The last record of a batch carrying the given id, if any: the binding
the key ends up with after `records.forEach(r => obj[r.id] = r)`. -/
def findLast (k : String) (recs : List TLRecord) : Option TLRecord :=
  recs.foldl (fun acc r => if r.id = k then some r else acc) none

/-- Keys of a record map. -/
def alKeys (m : RecordMap) : List String := m.map Prod.fst

/-- Every binding's value carries the binding's key as its id. -/
def alCoherent (m : RecordMap) : Prop := ∀ p ∈ m, (p.2).id = p.1

-- -----------------------------------------------------------------------------
-- Theorems
-- -----------------------------------------------------------------------------

theorem alLookup_alInsert (k k' : String) (v : TLRecord) (m : RecordMap) :
    alLookup k' (alInsert k v m) = if k' = k then some v else alLookup k' m := by
  induction m with
  | nil =>
    by_cases h : k' = k
    · subst h; simp [alInsert, alLookup]
    · simp [alInsert, alLookup, h, Ne.symm h]
  | cons p rest ih =>
    obtain ⟨k₀, v₀⟩ := p
    by_cases h₀ : k₀ = k
    · subst h₀
      by_cases h₁ : k' = k₀
      · subst h₁; simp [alInsert, alLookup]
      · simp [alInsert, alLookup, h₁, Ne.symm h₁]
    · by_cases h₁ : k₀ = k'
      · subst h₁
        simp [alInsert, alLookup, h₀]
      · simp [alInsert, alLookup, h₀, h₁, ih]

theorem alLookup_alErase (k k' : String) (m : RecordMap) :
    alLookup k' (alErase k m) = if k' = k then none else alLookup k' m := by
  induction m with
  | nil => simp [alErase, alLookup]
  | cons p rest ih =>
    obtain ⟨k₀, v₀⟩ := p
    by_cases h₀ : k₀ = k
    · subst h₀
      by_cases h₁ : k' = k₀
      · subst h₁; simp [alErase, alLookup, ih]
      · simp [alErase, alLookup, h₁, Ne.symm h₁, ih]
    · by_cases h₁ : k₀ = k'
      · subst h₁
        simp [alErase, alLookup, h₀]
      · simp [alErase, alLookup, h₀, h₁, ih]

theorem keyIn_alInsert (k k' : String) (v : TLRecord) (m : RecordMap) :
    keyIn k' (alInsert k v m) ↔ (k' = k ∨ keyIn k' m) := by
  by_cases h : k' = k <;> simp [keyIn, alLookup_alInsert, h]

theorem keyIn_alErase (k k' : String) (m : RecordMap) :
    keyIn k' (alErase k m) ↔ (k' ≠ k ∧ keyIn k' m) := by
  by_cases h : k' = k <;> simp [keyIn, alLookup_alErase, h]

theorem disjointMaps_empty : disjointMaps emptyPending := by
  intro k; simp [emptyPending, keyIn, alLookup]

theorem coupled_empty (doc : List String) : coupled doc emptyPending := by
  refine ⟨fun k hk => ?_, fun k hk => ?_, fun k hk => ?_⟩ <;>
    simp [emptyPending, keyIn, alLookup] at hk

theorem absorbOp_add (p : PendingChangeSet) (r : TLRecord) :
    absorbOp p (LocalOp.add r) = absorbAdded p r := rfl

theorem absorbOp_update (p : PendingChangeSet) (prev next : TLRecord) :
    absorbOp p (LocalOp.update prev next) = absorbUpdated p (prev, some next) := rfl

theorem absorbOp_remove (p : PendingChangeSet) (r : TLRecord) :
    absorbOp p (LocalOp.remove r) = absorbRemoved p r := rfl

theorem absorbAdded_preserves (doc : List String) (p : PendingChangeSet)
    (r : TLRecord) (hwf : r.id ∉ doc) (hd : disjointMaps p)
    (hc : coupled doc p) :
    disjointMaps (absorbAdded p r) ∧ coupled (r.id :: doc) (absorbAdded p r) := by
  obtain ⟨hca, hcu, hcr⟩ := hc
  constructor
  · intro k
    obtain ⟨hd1, hd2, hd3⟩ := hd k
    simp only [absorbAdded, keyIn_alInsert, keyIn_alErase]
    refine ⟨?_, ?_, ?_⟩
    · rintro ⟨ha | ha, hu⟩
      · exact hwf (ha ▸ hcu k hu)
      · exact hd1 ⟨ha, hu⟩
    · rintro ⟨ha | ha, hne, hr⟩
      · exact hne ha
      · exact hd2 ⟨ha, hr⟩
    · rintro ⟨hu, _, hr⟩
      exact hd3 ⟨hu, hr⟩
  · refine ⟨fun k hk => ?_, fun k hk => ?_, fun k hk => ?_⟩
    · simp only [absorbAdded, keyIn_alInsert] at hk
      rcases hk with hk | hk
      · simp [hk]
      · exact List.mem_cons_of_mem _ (hca k hk)
    · exact List.mem_cons_of_mem _ (hcu k hk)
    · simp only [absorbAdded, keyIn_alErase] at hk
      simp only [List.mem_cons, not_or]
      exact ⟨hk.1, hcr k hk.2⟩

theorem absorbUpdated_inAdded (p : PendingChangeSet) (prev next : TLRecord)
    (h : (alLookup next.id p.added).isSome = true) :
    absorbUpdated p (prev, some next) =
      { p with added := alInsert next.id next p.added } := by
  simp [absorbUpdated, h]

theorem absorbUpdated_notInAdded (p : PendingChangeSet) (prev next : TLRecord)
    (h : (alLookup next.id p.added).isSome = false) :
    absorbUpdated p (prev, some next) =
      { p with
        updated := alInsert next.id next p.updated
        removed := alErase next.id p.removed } := by
  simp [absorbUpdated, h]

theorem absorbRemoved_inAdded (p : PendingChangeSet) (r : TLRecord)
    (h : (alLookup r.id p.added).isSome = true) :
    absorbRemoved p r = { p with added := alErase r.id p.added } := by
  simp [absorbRemoved, h]

theorem absorbRemoved_notInAdded (p : PendingChangeSet) (r : TLRecord)
    (h : (alLookup r.id p.added).isSome = false) :
    absorbRemoved p r =
      { p with
        updated := alErase r.id p.updated
        removed := alInsert r.id r p.removed } := by
  simp [absorbRemoved, h]

theorem absorbUpdated_preserves (doc : List String) (p : PendingChangeSet)
    (prev next : TLRecord) (hwf : next.id ∈ doc) (hd : disjointMaps p)
    (hc : coupled doc p) :
    disjointMaps (absorbUpdated p (prev, some next)) ∧
    coupled doc (absorbUpdated p (prev, some next)) := by
  obtain ⟨hca, hcu, hcr⟩ := hc
  rcases Bool.eq_false_or_eq_true (alLookup next.id p.added).isSome with hin | hin
  · rw [absorbUpdated_inAdded p prev next hin]
    constructor
    · intro k
      obtain ⟨hd1, hd2, hd3⟩ := hd k
      simp only [keyIn_alInsert]
      refine ⟨?_, ?_, ?_⟩
      · rintro ⟨ha | ha, hu⟩
        · rw [ha] at hu
          exact (hd next.id).1 ⟨by simp [keyIn, hin], hu⟩
        · exact hd1 ⟨ha, hu⟩
      · rintro ⟨ha | ha, hr⟩
        · rw [ha] at hr
          exact (hd next.id).2.1 ⟨by simp [keyIn, hin], hr⟩
        · exact hd2 ⟨ha, hr⟩
      · exact hd3
    · refine ⟨fun k hk => ?_, fun k hk => ?_, fun k hk => ?_⟩
      · rcases (keyIn_alInsert next.id k next p.added).mp hk with hk | hk
        · exact hk ▸ hwf
        · exact hca k hk
      · exact hcu k hk
      · exact hcr k hk
  · rw [absorbUpdated_notInAdded p prev next hin]
    constructor
    · intro k
      obtain ⟨hd1, hd2, hd3⟩ := hd k
      simp only [keyIn_alInsert, keyIn_alErase]
      refine ⟨?_, ?_, ?_⟩
      · rintro ⟨ha, hu | hu⟩
        · rw [hu] at ha
          exact absurd ha (by simp [keyIn, hin])
        · exact hd1 ⟨ha, hu⟩
      · rintro ⟨ha, _, hr⟩
        exact hd2 ⟨ha, hr⟩
      · rintro ⟨hu | hu, hne, hr⟩
        · exact hne hu
        · exact hd3 ⟨hu, hr⟩
    · refine ⟨fun k hk => ?_, fun k hk => ?_, fun k hk => ?_⟩
      · exact hca k hk
      · rcases (keyIn_alInsert next.id k next p.updated).mp hk with hk | hk
        · exact hk ▸ hwf
        · exact hcu k hk
      · exact hcr k ((keyIn_alErase next.id k p.removed).mp hk).2

theorem absorbRemoved_preserves (doc : List String) (p : PendingChangeSet)
    (r : TLRecord) (_hwf : r.id ∈ doc) (hd : disjointMaps p)
    (hc : coupled doc p) :
    disjointMaps (absorbRemoved p r) ∧
    coupled (doc.filter (fun k => k != r.id)) (absorbRemoved p r) := by
  obtain ⟨hca, hcu, hcr⟩ := hc
  rcases Bool.eq_false_or_eq_true (alLookup r.id p.added).isSome with hin | hin
  · rw [absorbRemoved_inAdded p r hin]
    constructor
    · intro k
      obtain ⟨hd1, hd2, hd3⟩ := hd k
      simp only [keyIn_alErase]
      refine ⟨?_, ?_, ?_⟩
      · rintro ⟨⟨_, ha⟩, hu⟩
        exact hd1 ⟨ha, hu⟩
      · rintro ⟨⟨_, ha⟩, hr⟩
        exact hd2 ⟨ha, hr⟩
      · exact hd3
    · refine ⟨fun k hk => ?_, fun k hk => ?_, fun k hk => ?_⟩
      · obtain ⟨hne, hk'⟩ := (keyIn_alErase r.id k p.added).mp hk
        simp only [List.mem_filter, bne_iff_ne, decide_eq_true_eq]
        exact ⟨hca k hk', hne⟩
      · simp only [List.mem_filter, bne_iff_ne, decide_eq_true_eq]
        refine ⟨hcu k hk, fun hkr => ?_⟩
        rw [hkr] at hk
        exact (hd r.id).1 ⟨by simp [keyIn, hin], hk⟩
      · intro hmem
        simp only [List.mem_filter] at hmem
        exact hcr k hk hmem.1
  · rw [absorbRemoved_notInAdded p r hin]
    constructor
    · intro k
      obtain ⟨hd1, hd2, hd3⟩ := hd k
      simp only [keyIn_alInsert, keyIn_alErase]
      refine ⟨?_, ?_, ?_⟩
      · rintro ⟨ha, _, hu⟩
        exact hd1 ⟨ha, hu⟩
      · rintro ⟨ha, hr | hr⟩
        · rw [hr] at ha
          exact absurd ha (by simp [keyIn, hin])
        · exact hd2 ⟨ha, hr⟩
      · rintro ⟨⟨hne, hu⟩, hr | hr⟩
        · exact hne hr
        · exact hd3 ⟨hu, hr⟩
    · refine ⟨fun k hk => ?_, fun k hk => ?_, fun k hk => ?_⟩
      · simp only [List.mem_filter, bne_iff_ne, decide_eq_true_eq]
        refine ⟨hca k hk, fun hkr => ?_⟩
        rw [hkr] at hk
        exact absurd hk (by simp [keyIn, hin])
      · obtain ⟨hne, hk'⟩ := (keyIn_alErase r.id k p.updated).mp hk
        simp only [List.mem_filter, bne_iff_ne, decide_eq_true_eq]
        exact ⟨hcu k hk', hne⟩
      · intro hmem
        simp only [List.mem_filter, bne_iff_ne, decide_eq_true_eq] at hmem
        rcases (keyIn_alInsert r.id k r p.removed).mp hk with hk' | hk'
        · exact hmem.2 hk'
        · exact hcr k hk' hmem.1

theorem absorbOp_preserves (doc : List String) (p : PendingChangeSet)
    (op : LocalOp) (hwf : opWF doc op) (hd : disjointMaps p)
    (hc : coupled doc p) :
    disjointMaps (absorbOp p op) ∧ coupled (docStep doc op) (absorbOp p op) := by
  cases op with
  | add r => exact absorbAdded_preserves doc p r hwf hd hc
  | update prev next => exact absorbUpdated_preserves doc p prev next hwf hd hc
  | remove r => exact absorbRemoved_preserves doc p r hwf hd hc

theorem foldl_absorbOp_invariant (ops : List LocalOp) :
    ∀ (doc : List String) (p : PendingChangeSet), wfTrace doc ops →
      disjointMaps p → coupled doc p →
      disjointMaps (ops.foldl absorbOp p) := by
  induction ops with
  | nil => intro doc p _ hd _; simpa using hd
  | cons op rest ih =>
    intro doc p hwf hd hc
    obtain ⟨hop, hrest⟩ := hwf
    obtain ⟨hd', hc'⟩ := absorbOp_preserves doc p op hop hd hc
    simpa using ih (docStep doc op) (absorbOp p op) hrest hd' hc'

theorem foldl_find_eq_or (k : String) (recs : List TLRecord) :
    ∀ acc : Option TLRecord,
      recs.foldl (fun acc r => if r.id = k then some r else acc) acc =
        (findLast k recs).or acc := by
  induction recs with
  | nil => intro acc; simp [findLast]
  | cons r rest ih =>
    intro acc
    have h1 : (r :: rest).foldl (fun acc r => if r.id = k then some r else acc) acc =
        rest.foldl (fun acc r => if r.id = k then some r else acc)
          (if r.id = k then some r else acc) := rfl
    have h2 : findLast k (r :: rest) =
        rest.foldl (fun acc r => if r.id = k then some r else acc)
          (if r.id = k then some r else none) := rfl
    rw [h1, h2, ih, ih]
    cases hfl : findLast k rest with
    | some x => simp [Option.or]
    | none =>
      by_cases hid : r.id = k <;> simp [Option.or, hid]

theorem storePut_lookup (recs : List TLRecord) :
    ∀ (doc : Document) (k : String),
      alLookup k (storePut doc recs) = (findLast k recs).or (alLookup k doc) := by
  induction recs with
  | nil => intro doc k; simp [storePut, findLast]
  | cons r rest ih =>
    intro doc k
    have h1 : storePut doc (r :: rest) = storePut (alInsert r.id r doc) rest := rfl
    have h2 : findLast k (r :: rest) =
        (findLast k rest).or (if r.id = k then some r else none) :=
      foldl_find_eq_or k rest _
    rw [h1, ih, h2, alLookup_alInsert]
    cases hfl : findLast k rest with
    | some x => simp [Option.or]
    | none =>
      by_cases hid : r.id = k
    <;> simp [Option.or, hid, Ne.symm, eq_comm]

theorem findLast_eq_none (k : String) (recs : List TLRecord)
    (h : ∀ x ∈ recs, x.id ≠ k) : findLast k recs = none := by
  induction recs with
  | nil => rfl
  | cons r rest ih =>
    have h2 : findLast k (r :: rest) =
        (findLast k rest).or (if r.id = k then some r else none) :=
      foldl_find_eq_or k rest _
    rw [h2, ih (fun x hx => h x (List.mem_cons_of_mem r hx))]
    simp [Option.or, h r (List.mem_cons_self r rest)]

theorem findLast_isSome_of_mem (r : TLRecord) (recs : List TLRecord)
    (h : r ∈ recs) : (findLast r.id recs).isSome := by
  induction recs with
  | nil => cases h
  | cons a rest ih =>
    have h2 : findLast r.id (a :: rest) =
        (findLast r.id rest).or (if a.id = r.id then some a else none) :=
      foldl_find_eq_or r.id rest _
    rw [h2]
    rcases List.mem_cons.mp h with h | h
    · subst h
      cases findLast r.id rest <;> simp [Option.or]
    · cases hfl : findLast r.id rest with
      | some x => simp [Option.or]
      | none => exact absurd (hfl ▸ ih h) (by simp)

theorem findLast_of_nodup (r : TLRecord) (recs : List TLRecord)
    (hnd : (recs.map TLRecord.id).Nodup) (h : r ∈ recs) :
    findLast r.id recs = some r := by
  induction recs with
  | nil => cases h
  | cons a rest ih =>
    have h2 : findLast r.id (a :: rest) =
        (findLast r.id rest).or (if a.id = r.id then some a else none) :=
      foldl_find_eq_or r.id rest _
    simp only [List.map_cons, List.nodup_cons] at hnd
    rcases List.mem_cons.mp h with h | h
    · subst h
      have : findLast r.id rest = none := by
        refine findLast_eq_none _ _ (fun x hx hxid => ?_)
        exact hnd.1 (hxid ▸ List.mem_map_of_mem TLRecord.id hx)
      rw [h2, this]
      simp [Option.or]
    · rw [h2, ih hnd.2 h]
      simp [Option.or]

theorem optOr_none (o : Option TLRecord) : o.or none = o := by cases o <;> rfl

theorem optOr_assoc (a b c : Option TLRecord) :
    (a.or b).or c = a.or (b.or c) := by cases a <;> rfl

theorem alInsert_cons_eq (k k₀ : String) (v v₀ : TLRecord) (rest : RecordMap)
    (h : k₀ = k) : alInsert k v ((k₀, v₀) :: rest) = (k, v) :: rest := by
  simp [alInsert, h]

theorem alInsert_cons_ne (k k₀ : String) (v v₀ : TLRecord) (rest : RecordMap)
    (h : k₀ ≠ k) : alInsert k v ((k₀, v₀) :: rest) = (k₀, v₀) :: alInsert k v rest := by
  simp [alInsert, h]

theorem mem_alKeys_alInsert (j k : String) (v : TLRecord) (m : RecordMap) :
    j ∈ alKeys (alInsert k v m) ↔ (j = k ∨ j ∈ alKeys m) := by
  induction m with
  | nil => simp [alInsert, alKeys]
  | cons p rest ih =>
    obtain ⟨k₀, v₀⟩ := p
    by_cases h₀ : k₀ = k
    · rw [alInsert_cons_eq k k₀ v v₀ rest h₀]
      simp only [alKeys, List.map_cons, List.mem_cons]
      rw [h₀]
      tauto
    · rw [alInsert_cons_ne k k₀ v v₀ rest h₀]
      simp only [alKeys, List.map_cons, List.mem_cons] at ih ⊢
      rw [ih]
      tauto

theorem alKeys_nodup_alInsert (k : String) (v : TLRecord) (m : RecordMap)
    (hnd : (alKeys m).Nodup) : (alKeys (alInsert k v m)).Nodup := by
  induction m with
  | nil => simp [alInsert, alKeys]
  | cons p rest ih =>
    obtain ⟨k₀, v₀⟩ := p
    simp only [alKeys, List.map_cons, List.nodup_cons] at hnd
    by_cases h₀ : k₀ = k
    · rw [alInsert_cons_eq k k₀ v v₀ rest h₀]
      simp only [alKeys, List.map_cons, List.nodup_cons]
      exact ⟨h₀ ▸ hnd.1, hnd.2⟩
    · rw [alInsert_cons_ne k k₀ v v₀ rest h₀]
      simp only [alKeys, List.map_cons, List.nodup_cons]
      refine ⟨fun hmem => ?_, ih hnd.2⟩
      rcases (mem_alKeys_alInsert k₀ k v rest).mp hmem with h | h
      · exact h₀ h
      · exact hnd.1 h

theorem alCoherent_alInsert (v : TLRecord) (m : RecordMap)
    (hc : alCoherent m) : alCoherent (alInsert v.id v m) := by
  induction m with
  | nil =>
    intro p hp
    simp only [alInsert, List.mem_singleton] at hp
    subst hp; rfl
  | cons q rest ih =>
    obtain ⟨k₀, v₀⟩ := q
    by_cases h₀ : k₀ = v.id
    · rw [alInsert_cons_eq v.id k₀ v v₀ rest h₀]
      intro p hp
      rcases List.mem_cons.mp hp with hp | hp
      · subst hp; rfl
      · exact hc p (List.mem_cons_of_mem _ hp)
    · rw [alInsert_cons_ne v.id k₀ v v₀ rest h₀]
      intro p hp
      rcases List.mem_cons.mp hp with hp | hp
      · subst hp
        exact hc (k₀, v₀) (List.mem_cons_self _ _)
      · exact ih (fun q hq => hc q (List.mem_cons_of_mem _ hq)) p hp

theorem buildAddedMap_eq_storePut (records : List TLRecord) :
    buildAddedMap records = storePut [] records := rfl

theorem buildAddedMap_nodup_coherent (records : List TLRecord) :
    (alKeys (buildAddedMap records)).Nodup ∧ alCoherent (buildAddedMap records) := by
  suffices h : ∀ m : RecordMap, (alKeys m).Nodup → alCoherent m →
      (alKeys (records.foldl (fun m r => alInsert r.id r m) m)).Nodup ∧
      alCoherent (records.foldl (fun m r => alInsert r.id r m) m) by
    exact h [] (by simp [alKeys]) (fun p hp => absurd hp (List.not_mem_nil p))
  induction records with
  | nil => intro m h1 h2; exact ⟨h1, h2⟩
  | cons r rest ih =>
    intro m h1 h2
    exact ih (alInsert r.id r m) (alKeys_nodup_alInsert r.id r m h1)
      (alCoherent_alInsert r m h2)

theorem alLookup_eq_none_of_not_mem_keys (k : String) (m : RecordMap)
    (h : k ∉ alKeys m) : alLookup k m = none := by
  induction m with
  | nil => rfl
  | cons p rest ih =>
    obtain ⟨k₀, v₀⟩ := p
    simp only [alKeys, List.map_cons, List.mem_cons, not_or] at h
    simp only [alLookup, Ne.symm h.1, if_neg]
    exact ih h.2

theorem mem_alValues (x : TLRecord) (m : RecordMap) :
    x ∈ alValues m ↔ ∃ p ∈ m, p.2 = x := by
  simp [alValues, List.mem_map]

theorem findLast_alValues (m : RecordMap) (hnd : (alKeys m).Nodup)
    (hc : alCoherent m) (k : String) :
    findLast k (alValues m) = alLookup k m := by
  induction m with
  | nil => rfl
  | cons p rest ih =>
    obtain ⟨k₀, v₀⟩ := p
    have hv₀ : v₀.id = k₀ := hc (k₀, v₀) (List.mem_cons_self _ _)
    simp only [alKeys, List.map_cons, List.nodup_cons] at hnd
    have h2 : findLast k (alValues ((k₀, v₀) :: rest)) =
        (findLast k (alValues rest)).or (if v₀.id = k then some v₀ else none) := by
      have hv : alValues ((k₀, v₀) :: rest) = v₀ :: alValues rest := rfl
      rw [hv]
      exact foldl_find_eq_or k (alValues rest) _
    rw [h2, ih hnd.2 (fun q hq => hc q (List.mem_cons_of_mem _ hq))]
    by_cases hk : k₀ = k
    · subst hk
      have hnone : alLookup k₀ rest = none :=
        alLookup_eq_none_of_not_mem_keys k₀ rest hnd.1
      rw [hnone]
      simp [alLookup, Option.or, hv₀]
    · have hne : v₀.id ≠ k := fun h => hk (hv₀.symm.trans h)
      rw [if_neg hne, optOr_none]
      simp [alLookup, hk]

theorem applyRemote_lookup (records : List TLRecord) (doc : Document)
    (k : String) :
    alLookup k (applyRemote records doc) =
      (findLast k records).or (alLookup k doc) := by
  cases records with
  | nil => simp [applyRemote, findLast, Option.or]
  | cons r rest =>
    have hlen : (r :: rest).length > 0 := by simp
    have h1 : applyRemote (r :: rest) doc =
        storePut doc (alValues (buildAddedMap (r :: rest))) := by
      simp [applyRemote, hlen]
    obtain ⟨hnd, hc⟩ := buildAddedMap_nodup_coherent (r :: rest)
    rw [h1, storePut_lookup, findLast_alValues _ hnd hc, buildAddedMap_eq_storePut,
      storePut_lookup]
    have h3 : alLookup k ([] : RecordMap) = none := rfl
    rw [h3, optOr_none]

-- -----------------------------------------------------------------------------
-- Small facts about the flush steps
-- -----------------------------------------------------------------------------

theorem flushStart_fst (s : BoardState) : (flushStart s).1 = s.pending := by
  unfold flushStart
  by_cases h : hasChanges s.pending <;> simp [h]

theorem flushStart_pending (s : BoardState) :
    (flushStart s).2.pending = emptyPending := by
  unfold flushStart
  by_cases h : hasChanges s.pending <;> simp [h]

theorem flushStart_timer (s : BoardState) : (flushStart s).2.timer = none := by
  unfold flushStart
  by_cases h : hasChanges s.pending <;> simp [h]

theorem flushStart_sent_of_hasChanges (s : BoardState)
    (h : hasChanges s.pending = true) :
    (flushStart s).2.sent = s.sent ++ [s.pending] := by
  simp [flushStart, h]

theorem sendComplete_pending (ok : Bool) (s : BoardState) :
    (sendComplete ok s).pending = s.pending := by
  cases ok <;> simp [sendComplete]

theorem sendComplete_sent (ok : Bool) (s : BoardState) :
    (sendComplete ok s).sent = s.sent := by
  cases ok <;> simp [sendComplete]

theorem sendComplete_false_status (s : BoardState) :
    (sendComplete false s).syncStatus = SyncStatus.error := by
  simp [sendComplete]

theorem handleStoreChange_user (t : Nat) (cs : ChangeSet) (s : BoardState) :
    handleStoreChange t Source.user cs s =
      { s with
        syncStatus := SyncStatus.syncing
        pending := absorb s.pending cs
        timer := some (t + debounceMs) } := by
  simp [handleStoreChange]

-- -----------------------------------------------------------------------------
-- Claims
-- -----------------------------------------------------------------------------

/-- C1: a change notification whose source is remote leaves the component
state untouched — the pending buffer is not written, the debounce timer is
not started or reset, and no outbound push results; consequently any
sequence of inbound remote batches delivered through the listener triggers
zero outbound flush calls. -/
theorem c1_loop_guard_no_outbound :
    (∀ (t : Nat) (cs : ChangeSet) (s : BoardState),
      handleStoreChange t Source.remote cs s = s) ∧
    (∀ (batches : List (Nat × ChangeSet)) (s : BoardState),
      applyRemoteNotifications batches s = s ∧
      (applyRemoteNotifications batches s).sent = s.sent) := by
  have h1 : ∀ (t : Nat) (cs : ChangeSet) (s : BoardState),
      handleStoreChange t Source.remote cs s = s := by
    intro t cs s
    simp [handleStoreChange]
  refine ⟨h1, fun batches => ?_⟩
  induction batches with
  | nil => intro s; exact ⟨rfl, rfl⟩
  | cons b rest ih =>
    intro s
    have hstep : applyRemoteNotifications (b :: rest) s =
        applyRemoteNotifications rest (handleStoreChange b.1 Source.remote b.2 s) :=
      rfl
    rw [hstep, h1 b.1 b.2 s]
    exact ih s

/-- C2: within one open window, absorbing `add(id)` then `remove(id)` from
an empty buffer yields the empty pending change-set, and absorbing
`add(id, A)` then `update(id, B)` yields exactly `added[id] = B` with
nothing in `updated` or `removed`. -/
theorem c2_fold_minimality (id : String) (a b : Nat) :
    absorb (absorb emptyPending ⟨[⟨id, a⟩], [], []⟩) ⟨[], [], [⟨id, a⟩]⟩ =
      emptyPending ∧
    absorb (absorb emptyPending ⟨[⟨id, a⟩], [], []⟩)
        ⟨[], [(⟨id, a⟩, some ⟨id, b⟩)], []⟩ =
      { added := [(id, ⟨id, b⟩)], updated := [], removed := [] } := by
  constructor
  · simp [absorb, absorbAdded, absorbRemoved, emptyPending, alInsert, alErase,
      alLookup]
  · simp [absorb, absorbAdded, absorbUpdated, emptyPending, alInsert, alErase,
      alLookup]

/-- C3: the flush snapshot equals the buffer at flush time, the buffer is
reset to empty synchronously before the asynchronous send resolves, and an
edit absorbed after the snapshot (while the send is still in flight) is
absent from the flushed snapshot and present in the next flush's snapshot —
neither lost nor double-sent. -/
theorem c3_snapshot_before_send (s : BoardState) (t : Nat) (r : TLRecord)
    (ok : Bool) (h : alLookup r.id s.pending.added = none) :
    (flushStart s).2.pending = emptyPending ∧
    (flushStart s).1 = s.pending ∧
    alLookup r.id ((flushStart s).1).added = none ∧
    alLookup r.id ((flushStart (sendComplete ok (handleStoreChange t Source.user
        ⟨[r], [], []⟩ (flushStart s).2))).1).added = some r := by
  refine ⟨flushStart_pending s, flushStart_fst s, ?_, ?_⟩
  · rw [flushStart_fst]
    exact h
  · have hgoal : (sendComplete ok (handleStoreChange t Source.user
        ⟨[r], [], []⟩ (flushStart s).2)).pending =
        absorb emptyPending ⟨[r], [], []⟩ := by
      rw [sendComplete_pending, handleStoreChange_user]
      dsimp only
      rw [flushStart_pending]
    rw [flushStart_fst, hgoal]
    simp [absorb, absorbAdded, emptyPending, alInsert, alLookup]

/-- Witness for C3 at a concrete state and record. -/
theorem c3_snapshot_before_send_witness :
    (flushStart initBoard).2.pending = emptyPending ∧
    (flushStart initBoard).1 = initBoard.pending ∧
    alLookup "a" ((flushStart initBoard).1).added = none ∧
    alLookup "a" ((flushStart (sendComplete false (handleStoreChange 0 Source.user
        ⟨[⟨"a", 1⟩], [], []⟩ (flushStart initBoard).2))).1).added =
      some ⟨"a", 1⟩ :=
  c3_snapshot_before_send initBoard 0 ⟨"a", 1⟩ false rfl

/-- C4: every local absorption re-arms the single debounce timer for a full
500-unit window, and for local edits at t = 0, 200 and 600 exactly one
flush fires, at t = 1100, carrying the fold of all three edits. -/
theorem c4_debounce_single_flush (cs₁ cs₂ cs₃ : ChangeSet)
    (h : hasChanges (absorb (absorb (absorb emptyPending cs₁) cs₂) cs₃) = true) :
    (∀ (t : Nat) (cs : ChangeSet) (s : BoardState),
      (handleStoreChange t Source.user cs s).timer = some (t + debounceMs)) ∧
    (runEdits [(0, cs₁), (200, cs₂), (600, cs₃)] initBoard).2 =
      [(1100, absorb (absorb (absorb emptyPending cs₁) cs₂) cs₃)] := by
  constructor
  · intro t cs s
    simp [handleStoreChange]
  · simp [runEdits, stepEdit, finalFlush, handleStoreChange, flushStart,
      sendComplete, initBoard, debounceMs, h]

/-- Witness for C4 at three concrete edits. -/
theorem c4_debounce_single_flush_witness :
    (runEdits [(0, ⟨[⟨"a", 1⟩], [], []⟩), (200, ⟨[], [(⟨"a", 1⟩, some ⟨"a", 2⟩)], []⟩),
        (600, ⟨[], [(⟨"a", 2⟩, some ⟨"a", 5⟩)], []⟩)] initBoard).2 =
      [(1100, absorb (absorb (absorb emptyPending ⟨[⟨"a", 1⟩], [], []⟩)
        ⟨[], [(⟨"a", 1⟩, some ⟨"a", 2⟩)], []⟩)
        ⟨[], [(⟨"a", 2⟩, some ⟨"a", 5⟩)], []⟩)] :=
  (c4_debounce_single_flush _ _ _ (by decide)).2

/-- C5 counterexample: over an arbitrary notification sequence the claimed
invariant fails — absorbing an update of id "a" and then an add of id "a"
from an empty buffer leaves "a" in both the added and the updated map,
because the Handle Added branch deletes a stale removal but not a stale
update for the incoming id. -/
theorem c5_update_then_add_counterexample :
    keyIn "a" (absorbOp (absorbOp emptyPending
        (LocalOp.update ⟨"a", 0⟩ ⟨"a", 1⟩)) (LocalOp.add ⟨"a", 2⟩)).added ∧
    keyIn "a" (absorbOp (absorbOp emptyPending
        (LocalOp.update ⟨"a", 0⟩ ⟨"a", 1⟩)) (LocalOp.add ⟨"a", 2⟩)).updated := by
  decide

/-- C5 (amended): after any document-consistent sequence of absorbed
add/update/remove notifications — adds only for ids absent from the local
document, updates and removes only for present ids, which is what the
editing surface emits — starting from an empty pending change-set, every
record id appears in at most one of the three maps. -/
theorem c5_wf_trace_disjoint (ops : List LocalOp) (doc : List String)
    (h : wfTrace doc ops) :
    disjointMaps (ops.foldl absorbOp emptyPending) :=
  foldl_absorbOp_invariant ops doc emptyPending h disjointMaps_empty
    (coupled_empty doc)

/-- Witness for C5 on a concrete document-consistent trace. -/
theorem c5_wf_trace_disjoint_witness :
    wfTrace [] [LocalOp.add ⟨"a", 1⟩, LocalOp.update ⟨"a", 1⟩ ⟨"a", 2⟩,
      LocalOp.remove ⟨"a", 2⟩] ∧
    disjointMaps ([LocalOp.add ⟨"a", 1⟩, LocalOp.update ⟨"a", 1⟩ ⟨"a", 2⟩,
      LocalOp.remove ⟨"a", 2⟩].foldl absorbOp emptyPending) := by
  have h : wfTrace [] [LocalOp.add ⟨"a", 1⟩, LocalOp.update ⟨"a", 1⟩ ⟨"a", 2⟩,
      LocalOp.remove ⟨"a", 2⟩] := by
    refine ⟨?_, ?_, ?_, trivial⟩ <;> simp [opWF, docStep]
  exact ⟨h, c5_wf_trace_disjoint _ [] h⟩

/-- C6: when the outbound push of a non-empty flush snapshot rejects, the
status becomes the error state, the buffer afterwards holds exactly the
edits absorbed since the snapshot (the failed snapshot is not restored),
and the snapshot was handed to the outbound call exactly once (no retry). -/
theorem c6_flush_error_no_restore (s : BoardState) (t : Nat) (cs : ChangeSet)
    (h : hasChanges s.pending = true) :
    (sendComplete false (handleStoreChange t Source.user cs
      (flushStart s).2)).syncStatus = SyncStatus.error ∧
    (sendComplete false (handleStoreChange t Source.user cs
      (flushStart s).2)).pending = absorb emptyPending cs ∧
    (sendComplete false (handleStoreChange t Source.user cs
      (flushStart s).2)).sent = s.sent ++ [s.pending] := by
  refine ⟨sendComplete_false_status _, ?_, ?_⟩
  · rw [sendComplete_pending, handleStoreChange_user]
    dsimp only
    rw [flushStart_pending]
  · rw [sendComplete_sent, handleStoreChange_user]
    dsimp only
    rw [flushStart_sent_of_hasChanges s h]

/-- Witness for C6 at a concrete state with a non-empty buffer. -/
theorem c6_flush_error_no_restore_witness :
    (sendComplete false (handleStoreChange 700 Source.user
      ⟨[⟨"b", 2⟩], [], []⟩ (flushStart (handleStoreChange 0 Source.user
        ⟨[⟨"a", 1⟩], [], []⟩ initBoard)).2)).syncStatus = SyncStatus.error ∧
    (sendComplete false (handleStoreChange 700 Source.user
      ⟨[⟨"b", 2⟩], [], []⟩ (flushStart (handleStoreChange 0 Source.user
        ⟨[⟨"a", 1⟩], [], []⟩ initBoard)).2)).pending =
      absorb emptyPending ⟨[⟨"b", 2⟩], [], []⟩ ∧
    (sendComplete false (handleStoreChange 700 Source.user
      ⟨[⟨"b", 2⟩], [], []⟩ (flushStart (handleStoreChange 0 Source.user
        ⟨[⟨"a", 1⟩], [], []⟩ initBoard)).2)).sent =
      (handleStoreChange 0 Source.user ⟨[⟨"a", 1⟩], [], []⟩ initBoard).sent ++
        [(handleStoreChange 0 Source.user ⟨[⟨"a", 1⟩], [], []⟩ initBoard).pending] :=
  c6_flush_error_no_restore
    (handleStoreChange 0 Source.user ⟨[⟨"a", 1⟩], [], []⟩ initBoard)
    700 ⟨[⟨"b", 2⟩], [], []⟩ (by decide)

/-- C7: the displayed presence set is exactly the received records whose
userId differs from the viewer's own id and whose resolved lastActive age
is strictly below the 60-second staleness threshold; in particular a record
aged 61000ms is excluded, one aged 59000ms (from another user) is included,
and a record carrying the viewer's own id is never included. -/
theorem c7_presence_filter (now : Int) (uid : String)
    (users : List PresenceRecord) :
    (∀ u ∈ activeUsers now uid users, u.userId ≠ uid) ∧
    (∀ u, u ∈ activeUsers now uid users ↔
      (u ∈ users ∧ u.userId ≠ uid ∧
        now - resolveLastActive now u.lastActive < staleThresholdMs)) ∧
    (∀ u ∈ users, u.lastActive = JSTime.tsObj (now - 61000) →
      u ∉ activeUsers now uid users) ∧
    (∀ u ∈ users, u.userId ≠ uid → u.lastActive = JSTime.tsObj (now - 59000) →
      u ∈ activeUsers now uid users) := by
  have hmem : ∀ u, u ∈ activeUsers now uid users ↔
      (u ∈ users ∧ u.userId ≠ uid ∧
        now - resolveLastActive now u.lastActive < staleThresholdMs) := by
    intro u
    unfold activeUsers
    rw [List.mem_filter]
    unfold presenceKeep
    by_cases hu : u.userId = uid
    · simp [hu]
    · simp [hu]
  refine ⟨fun u hu => ((hmem u).mp hu).2.1, hmem, ?_, ?_⟩
  · intro u hu hts hact
    have := ((hmem u).mp hact).2.2
    rw [hts] at this
    simp only [resolveLastActive, staleThresholdMs] at this
    omega
  · intro u hu hne hts
    refine (hmem u).mpr ⟨hu, hne, ?_⟩
    rw [hts]
    simp only [resolveLastActive, staleThresholdMs]
    omega

/-- Witness for C7: with now = 100000, a record aged 59000ms from another
user is displayed and a record aged 61000ms is not. -/
theorem c7_presence_filter_witness :
    (⟨"u3", "", "", 0, 0, JSTime.tsObj 41000⟩ : PresenceRecord) ∈
      activeUsers 100000 "me"
        [⟨"me", "", "", 0, 0, JSTime.tsObj 99000⟩,
         ⟨"u2", "", "", 0, 0, JSTime.tsObj 39000⟩,
         ⟨"u3", "", "", 0, 0, JSTime.tsObj 41000⟩] ∧
    (⟨"u2", "", "", 0, 0, JSTime.tsObj 39000⟩ : PresenceRecord) ∉
      activeUsers 100000 "me"
        [⟨"me", "", "", 0, 0, JSTime.tsObj 99000⟩,
         ⟨"u2", "", "", 0, 0, JSTime.tsObj 39000⟩,
         ⟨"u3", "", "", 0, 0, JSTime.tsObj 41000⟩] := by
  constructor
  · exact (c7_presence_filter 100000 "me" _).2.2.2
      ⟨"u3", "", "", 0, 0, JSTime.tsObj 41000⟩ (by simp) (by decide) rfl
  · exact (c7_presence_filter 100000 "me" _).2.2.1
      ⟨"u2", "", "", 0, 0, JSTime.tsObj 39000⟩ (by simp) rfl

/-- C8: the lastActive resolution is total and never throws — an epoch-millis
timestamp (a Date, via getTime) and a provider timestamp object (via
toMillis) both yield their own millis value, and every other shape (plain
number, string, null/undefined/absent) defaults to the current time; for
every presence record some millis value is computed. -/
theorem c8_lastActive_resolution_total (now : Int) :
    (∀ m : Int, resolveLastActive now (JSTime.dateObj m) = m) ∧
    (∀ m : Int, resolveLastActive now (JSTime.tsObj m) = m) ∧
    (∀ n : Int, resolveLastActive now (JSTime.rawNum n) = now) ∧
    (∀ s : String, resolveLastActive now (JSTime.strVal s) = now) ∧
    (resolveLastActive now JSTime.nullVal = now) ∧
    (∀ u : PresenceRecord, ∃ m : Int, resolveLastActive now u.lastActive = m) :=
  ⟨fun _ => rfl, fun _ => rfl, fun _ => rfl, fun _ => rfl, rfl,
    fun u => ⟨resolveLastActive now u.lastActive, rfl⟩⟩

/-- C9 counterexample: the publisher does not skip non-finite coordinates in
general — the guard is `Number.isNaN`, so a sampled x of +infinity (not a
finite number) still results in a publish emission. -/
theorem c9_infinite_coordinate_counterexample :
    jsIsFinite JSNum.posInf = false ∧
    (broadcastTick 1000 0 JSNum.posInf (JSNum.num 0) "u" none none).isSome =
      true := by
  decide

/-- C9 (amended): the publisher skips the emission whenever a sampled
coordinate is NaN (infinite coordinates pass the guard), and whenever it
does publish, the emitted x and y are the Math.round of the sampled
coordinates — integer half-up rounding on finite values. -/
theorem c9_nan_guard_and_round (now last : Int) (x y : JSNum) (uid : String)
    (profileName email : Option String) :
    ((jsIsNaN x = true ∨ jsIsNaN y = true) →
      broadcastTick now last x y uid profileName email = none) ∧
    (∀ (p : PresencePayload) (l' : Int),
      broadcastTick now last x y uid profileName email = some (p, l') →
      p.x = jsRound x ∧ p.y = jsRound y ∧
      (∀ q : ℚ, x = JSNum.num q → p.x = JSNum.num (jsRoundQ q))) := by
  constructor
  · intro hnan
    unfold broadcastTick
    rcases hnan with h | h <;>
      by_cases ht : now - last < 100 <;> simp [ht, h]
  · intro p l' hp
    unfold broadcastTick at hp
    by_cases ht : now - last < 100
    · simp [ht] at hp
    · by_cases hx : jsIsNaN x
      · simp [ht, hx] at hp
      · by_cases hy : jsIsNaN y
        · simp [ht, hx, hy] at hp
        · simp only [Bool.not_eq_true] at hx hy
          rw [if_neg ht, if_pos (by simp [hx, hy])] at hp
          simp only [Option.some.injEq, Prod.mk.injEq] at hp
          obtain ⟨hp1, hp2⟩ := hp
          subst hp1
          exact ⟨rfl, rfl, fun q hq => by rw [hq]; rfl⟩

/-- Witness for C9: a NaN x-coordinate suppresses the publish, and a
published finite coordinate 3/2 is emitted as the rounded integer 2. -/
theorem c9_nan_guard_and_round_witness :
    broadcastTick 1000 0 JSNum.nan (JSNum.num 0) "u" none none = none ∧
    (⟨"u", "Anon", "#3b82f6", JSNum.num 2, JSNum.num 0⟩ : PresencePayload).x =
      jsRound (JSNum.num (mkRat 3 2)) := by
  refine ⟨(c9_nan_guard_and_round 1000 0 JSNum.nan (JSNum.num 0) "u"
    none none).1 (Or.inl rfl), ?_⟩
  exact ((c9_nan_guard_and_round 1000 0 (JSNum.num (mkRat 3 2)) (JSNum.num 0) "u"
    none none).2 ⟨"u", "Anon", "#3b82f6", JSNum.num 2, JSNum.num 0⟩ 1000
    (by decide)).1

/-- C10: the inbound merge path only upserts — every id carried by the batch
ends up bound in the local document (with the batch's record when ids are
unique in the batch), ids not mentioned by the batch keep their prior
binding, and no id ever disappears from the local document. -/
theorem c10_inbound_upsert_only (records : List TLRecord) (doc : Document) :
    (∀ k, (alLookup k doc).isSome → (alLookup k (applyRemote records doc)).isSome) ∧
    (∀ k, (∀ r ∈ records, r.id ≠ k) →
      alLookup k (applyRemote records doc) = alLookup k doc) ∧
    (∀ r ∈ records, (alLookup r.id (applyRemote records doc)).isSome) ∧
    ((records.map TLRecord.id).Nodup →
      ∀ r ∈ records, alLookup r.id (applyRemote records doc) = some r) := by
  refine ⟨?_, ?_, ?_, ?_⟩
  · intro k hk
    rw [applyRemote_lookup]
    cases hfl : findLast k records with
    | some x => simp [Option.or]
    | none => simpa [Option.or] using hk
  · intro k hk
    rw [applyRemote_lookup, findLast_eq_none k records hk]
    rfl
  · intro r hr
    rw [applyRemote_lookup]
    cases hfl : findLast r.id records with
    | some x => simp [Option.or]
    | none => exact absurd (hfl ▸ findLast_isSome_of_mem r records hr) (by simp)
  · intro hnd r hr
    rw [applyRemote_lookup, findLast_of_nodup r records hnd hr]
    rfl

/-- Witness for C10 on a concrete batch and document. -/
theorem c10_inbound_upsert_only_witness :
    alLookup "a" (applyRemote [⟨"a", 1⟩, ⟨"b", 2⟩] [("c", ⟨"c", 9⟩)]) =
      some ⟨"a", 1⟩ ∧
    alLookup "c" (applyRemote [⟨"a", 1⟩, ⟨"b", 2⟩] [("c", ⟨"c", 9⟩)]) =
      some ⟨"c", 9⟩ := by
  constructor
  · exact (c10_inbound_upsert_only [⟨"a", 1⟩, ⟨"b", 2⟩] [("c", ⟨"c", 9⟩)]).2.2.2
      (by decide) ⟨"a", 1⟩ (by decide)
  · have h := (c10_inbound_upsert_only [⟨"a", 1⟩, ⟨"b", 2⟩]
      [("c", ⟨"c", 9⟩)]).2.1 "c" (by decide)
    rw [h]
    rfl
